import Mathlib

/-!
Verification of the ecosort-be batch-prediction engine.

This file is a shallow embedding of the Go sources, centred on
`internal/services/prediction/prediction_service.go` (the batch runner
`ProcessPredictions`, the in-memory job-progress store `jobProgressMap`, the
WebSocket connection registry `wsConnections`, and the filename helper
`getJpgFileName`) and `internal/handlers/prediction.go` (the WebSocket
subscription handler `PredictionsWebSocketHandler`).

Go strings that the proofs need to take apart (filenames, paths) are modelled
as `List Char`; strings used only as opaque keys or tags (job ids, statuses)
are Lean `String`s.  Go's `int` values appearing here (progress percentages,
lengths) are non-negative throughout, so they are modelled as `Nat`; the Go
integer division `(end * 100) / total` on non-negative operands is Nat
division (truncation towards zero = floor).
-/

namespace EcoSort

/-- `config.Classes` from the Go `config` package (`cmd/server/main.go`):
`{ Index int; Name, ReadableName, Description string }`. -/
structure Classes where
  index : Int
  name : String
  readableName : String
  description : String
deriving DecidableEq, Repr

/-- The Go zero value `config.Classes{}`. -/
def zeroClasses : Classes := { index := 0, name := "", readableName := "", description := "" }

/-- `multipart.FileHeader`: of its fields only `Filename` is used by the
modelled code paths. -/
structure FileHeader where
  filename : List Char
deriving DecidableEq, Repr

/-! ### `filepath.Ext` and `getJpgFileName` -/

/-- Scanning core of Go's `filepath.Ext`: the input is the path reversed,
`acc` is the suffix collected so far (in forward order).  Go's `Ext` walks
backwards from the end of the path; it returns `path[i:]` for the last `.`
found before any path separator, and `""` if a separator or the start of the
string is reached first. -/
def extRevAux : List Char → List Char → List Char
  | [], _ => []
  | c :: rest, acc =>
    if c = '/' then []
    else if c = '.' then c :: acc
    else extRevAux rest (c :: acc)

/-- Go `filepath.Ext(path)` (Unix separator). -/
def filepathExt (path : List Char) : List Char :=
  extRevAux path.reverse []

/-- The literal `".jpg"`. -/
def jpgExt : List Char := ['.', 'j', 'p', 'g']

/-- `getJpgFileName` (prediction_service.go:279-285), on the filename string:
if `filepath.Ext(fullFileName) != ".jpg"` then append `".jpg"`. -/
def jpgFileName (fullFileName : List Char) : List Char :=
  if filepathExt fullFileName ≠ jpgExt then fullFileName ++ jpgExt else fullFileName

/-- `getJpgFileName(file)` reads `file.Filename` and applies the
transformation above. -/
def getJpgFileName (file : FileHeader) : List Char :=
  jpgFileName file.filename

/-! #### Properties of the filename transformation -/

/-- `extRevAux` either returns `[]` or returns (the reverse of) a prefix of
its input followed by the accumulator. -/
theorem extRevAux_cases (l : List Char) :
    ∀ acc, extRevAux l acc = [] ∨
      ∃ pre, pre <+: l ∧ extRevAux l acc = pre.reverse ++ acc := by
  induction l with
  | nil => intro acc; exact Or.inl rfl
  | cons c rest ih =>
    intro acc
    by_cases hsep : c = '/'
    · left; simp [extRevAux, hsep]
    · by_cases hdot : c = '.'
      · right
        refine ⟨[c], ⟨rest, rfl⟩, ?_⟩
        simp [extRevAux, hsep, hdot]
      · have h := ih (c :: acc)
        rcases h with h | ⟨pre, hpre, heq⟩
        · left; simpa [extRevAux, hsep, hdot] using h
        · right
          refine ⟨c :: pre, ?_, ?_⟩
          · exact (List.prefix_cons_inj c).mpr hpre
          · simp [extRevAux, hsep, hdot, heq]

/-- Appending `".jpg"` always makes the Go extension `".jpg"`: the scan from
the right meets `g`, `p`, `j`, `.` before anything else. -/
theorem filepathExt_append_jpg (x : List Char) :
    filepathExt (x ++ jpgExt) = jpgExt := by
  simp only [filepathExt, jpgExt, List.reverse_append]
  rfl

/-- If Go reports extension `".jpg"` then the path really ends in `".jpg"`. -/
theorem suffix_of_filepathExt_jpg (x : List Char) (h : filepathExt x = jpgExt) :
    jpgExt <:+ x := by
  rcases extRevAux_cases x.reverse [] with h0 | ⟨pre, hpre, heq⟩
  · rw [filepathExt] at h
    rw [h0] at h
    exact absurd h.symm (by decide)
  · rw [filepathExt] at h
    rw [heq, List.append_nil] at h
    have hpreval : pre = jpgExt.reverse := by
      simpa using congrArg List.reverse h
    rw [hpreval] at hpre
    exact List.reverse_prefix.mp hpre

/-- The transformation is idempotent. -/
theorem jpgFileName_idem (x : List Char) :
    jpgFileName (jpgFileName x) = jpgFileName x := by
  by_cases h : filepathExt x = jpgExt
  · have h1 : jpgFileName x = x := by rw [jpgFileName, if_neg (not_not_intro h)]
    rw [h1, h1]
  · have h1 : jpgFileName x = x ++ jpgExt := by rw [jpgFileName, if_pos h]
    rw [h1, jpgFileName, if_neg (by simp [filepathExt_append_jpg])]

/-- The result always ends in `".jpg"`. -/
theorem jpgFileName_suffix (x : List Char) : jpgExt <:+ jpgFileName x := by
  by_cases h : filepathExt x = jpgExt
  · rw [jpgFileName, if_neg (by simpa using h)]
    exact suffix_of_filepathExt_jpg x h
  · rw [jpgFileName, if_pos (by simpa using h)]
    exact List.suffix_append x jpgExt

/-! ### Data model of the job store and WebSocket registry -/

/-- `JobImagePrediction` (prediction_service.go:58-63). -/
structure JobImagePrediction where
  jobID : String
  prediction : Classes
  imageName : List Char
  status : String
deriving DecidableEq, Repr

/-- `JobProgress` (prediction_service.go:65-69).  A Go `nil` slice of
predictions is the empty list. -/
structure JobProgress where
  progress : Nat
  status : String
  predictions : List JobImagePrediction
deriving DecidableEq, Repr

/-- The in-memory job store `jobProgressMap.Data : map[string]JobProgress`. -/
abbrev Store := String → Option JobProgress

/-- The classification backend: `PredictImage(filePath)` returns either a
class or an error; `none` models the error case (the Go function returns a
`nil` result exactly when it returns a non-`nil` error). -/
abbrev Classify := List Char → Option Classes

/-- `filepath.Join(dir, name)` for the paths built here (no `..`/`.`
components or duplicate separators occur, so joining is concatenation with a
separator). -/
def pathJoin (dir name : List Char) : List Char :=
  dir ++ '/' :: name

/-- One iteration of the inner per-item loop (prediction_service.go:119-135):
classify the item, record `Failed` on error (with the zero-value class) and
`Completed` otherwise. -/
def itemPrediction (cl : Classify) (jobID : String) (jobDir : List Char)
    (file : FileHeader) : JobImagePrediction :=
  let predictionResult := cl (pathJoin jobDir (getJpgFileName file))
  { jobID := jobID
    prediction := match predictionResult with
      | none => zeroClasses
      | some r => r
    imageName := getJpgFileName file
    status := match predictionResult with
      | none => "Failed"
      | some _ => "Completed" }

/-- The store update of prediction_service.go:144-154: if no record exists
for the job the update is stored as-is; otherwise the update's prediction
list is prepended with the existing record's predictions and the combined
record is stored (the Go code mutates the local `update` before storing it,
and later pushes that same mutated value, so the function returns the stored
record together with the new store). -/
def upsert (store : Store) (jobID : String) (update : JobProgress) :
    JobProgress × Store :=
  match store jobID with
  | none => (update, fun k => if k = jobID then some update else store k)
  | some previous =>
    let merged : JobProgress :=
      { update with predictions := previous.predictions ++ update.predictions }
    (merged, fun k => if k = jobID then some merged else store k)

/-- Payloads written to a WebSocket connection by the service and the
handler. -/
inductive WsPayload where
  /-- `ws.WriteJSON(update)` of a `JobProgress` value. -/
  | progress (p : JobProgress)
  /-- the terminal `map[string]any{"jobID": ..., "message": "Job completed",
  "update": ...}` object (prediction_service.go:180). -/
  | completedMsg (jobID : String) (update : JobProgress)
  /-- a WebSocket close-control frame. -/
  | closeFrame
deriving DecidableEq, Repr

/-- The WebSocket side: `wsConnections.Connections : map[string]*websocket.Conn`
keyed by job id, with connections named by numbers.  `closed` records which
connections have been `Close()`d and `sent` the sequence of write attempts on
each connection, paired with whether the write succeeded (the transport may
fail a write; the callers under verification discard that error). -/
structure WsState where
  registry : String → Option Nat
  closed : Nat → Bool
  sent : Nat → List (WsPayload × Bool)

/-- A write attempt on connection `c`: the payload is recorded together with
the outcome `pushOk n` for the connection's `n`-th write. -/
def wsSend (pushOk : Nat → Bool) (w : WsState) (c : Nat) (m : WsPayload) : WsState :=
  { w with sent := fun k =>
      if k = c then w.sent c ++ [(m, pushOk (w.sent c).length)] else w.sent k }

/-- `conn.Close()`. -/
def closeConn (w : WsState) (c : Nat) : WsState :=
  { w with closed := fun k => if k = c then true else w.closed k }

/-- Removing the binding for a job id from `wsConnections`. -/
def unbind (w : WsState) (jobID : String) : WsState :=
  { w with registry := fun k => if k = jobID then none else w.registry k }

/-- Registering a connection in `wsConnections` (prediction.go:113-115):
a plain map assignment, displacing any previous binding for the job id. -/
def bindConn (w : WsState) (jobID : String) (c : Nat) : WsState :=
  { w with registry := fun k => if k = jobID then some c else w.registry k }

/-- State threaded through `ProcessPredictions`: the job store, the
WebSocket state, the trace `records` of successive values stored for this
job (instrumentation used to state the claims), and whether the job's
working directory `wsjobs/<jobID>` has been removed. -/
structure RunState where
  store : Store
  ws : WsState
  records : List JobProgress
  dirRemoved : Bool

/-- The body of one chunk iteration (prediction_service.go:118-159): build
the chunk `files[i:min(i+10, total)]` (here `rem.take 10` with
`rem = files[i:]`), classify its items, compute the progress percentage
`(end * 100) / total` with `end = done + len(chunk)`, store the update via
the merge of lines 144-154, and, if a WebSocket connection is registered for
the job, write the (merged) update to it, discarding the write's error. -/
def chunkStep (cl : Classify) (pushOk : Nat → Bool) (jobID : String)
    (jobDir : List Char) (total : Nat) (rem : List FileHeader) (done : Nat)
    (s : RunState) : RunState :=
  let chunk := rem.take 10
  let predictions := chunk.map (itemPrediction cl jobID jobDir)
  let update : JobProgress :=
    { progress := ((done + chunk.length) * 100) / total
      status := "running"
      predictions := predictions }
  let su := upsert s.store jobID update
  let ws' := match s.ws.registry jobID with
    | some c => wsSend pushOk s.ws c (WsPayload.progress su.1)
    | none => s.ws
  { s with store := su.2, ws := ws', records := s.records ++ [su.1] }

/-- The chunk loop of `ProcessPredictions` (prediction_service.go:115-162).
`rem` is the remaining file list (`files[done:]`), `done` the index `i`, and
`total = len(files)`.  The `fuel` argument only bounds the recursion depth;
the caller passes more fuel than there are chunks, so the `fuel = 0` branch
is never taken (the Go loop always terminates after `ceil(total/10)`
iterations). -/
def loopGo (cl : Classify) (pushOk : Nat → Bool) (jobID : String)
    (jobDir : List Char) (total : Nat) :
    Nat → List FileHeader → Nat → RunState → RunState
  | 0, _, _, s => s
  | _ + 1, [], _, s => s
  | fuel + 1, rem@(_ :: _), done, s =>
    loopGo cl pushOk jobID jobDir total fuel (rem.drop 10)
      (done + (rem.take 10).length)
      (chunkStep cl pushOk jobID jobDir total rem done s)

/-- The terminal store write (prediction_service.go:164-178): the final
update has progress 100 and status `"completed"`, and carries the previous
record's predictions when a record exists.  The Go code assigns
`Data[jobID] = finalUpdate` twice in a row (once unguarded in the if/else,
once under the lock) with the identical value; the net effect is the single
store update modelled here. -/
def terminalWrite (store : Store) (jobID : String) : JobProgress × Store :=
  let finalUpdate : JobProgress :=
    match store jobID with
    | none => { progress := 100, status := "completed", predictions := [] }
    | some previous =>
      { progress := 100, status := "completed", predictions := previous.predictions }
  (finalUpdate, fun k => if k = jobID then some finalUpdate else store k)

/-- `ProcessPredictions` (prediction_service.go:112-186), sequentially: run
the chunk loop, write the terminal update, and, if a WebSocket connection is
registered for the job, push the completion message, send a close frame,
close the connection and remove the job's working directory
`wsjobs/<jobID>`.  The runner itself never writes to `wsConnections`. -/
def processPredictions (cl : Classify) (pushOk : Nat → Bool) (jobID : String)
    (files : List FileHeader) (jobDir : List Char) (s : RunState) : RunState :=
  let s1 := loopGo cl pushOk jobID jobDir files.length (files.length + 1) files 0 s
  let fu := terminalWrite s1.store jobID
  let s2 : RunState :=
    { s1 with store := fu.2, records := s1.records ++ [fu.1] }
  match s2.ws.registry jobID with
  | some c =>
    let w := wsSend pushOk s2.ws c (WsPayload.completedMsg jobID fu.1)
    let w := wsSend pushOk w c WsPayload.closeFrame
    let w := closeConn w c
    { s2 with ws := w, dirRemoved := true }
  | none => s2

/-- Result of one sequential execution of the WebSocket handler. -/
structure HandlerResult where
  store : Store
  ws : WsState
  dirRemoved : Bool

/-- `PredictionsWebSocketHandler` (prediction.go:97-142), sequentially, for
an upgraded connection `c`: register the connection, send the current
progress if a record exists, and if that record is terminal (progress 100)
delete the job record, send a close frame, close the connection and remove
the job directory.  The final read loop exits when `ReadMessage` fails —
immediately if the handler closed the connection itself, otherwise when the
client disconnects — after which the binding is deleted from
`wsConnections`; the model runs the handler to that completion. -/
def wsHandler (pushOk : Nat → Bool) (store : Store) (w : WsState)
    (jobID : String) (c : Nat) : HandlerResult :=
  let w1 := bindConn w jobID c
  match store jobID with
  | some progress =>
    let w2 := wsSend pushOk w1 c (WsPayload.progress progress)
    if progress.progress = 100 then
      let store2 : Store := fun k => if k = jobID then none else store k
      let w3 := closeConn (wsSend pushOk w2 c WsPayload.closeFrame) c
      { store := store2, ws := unbind w3 jobID, dirRemoved := true }
    else
      { store := store, ws := unbind w2 jobID, dirRemoved := false }
  | none => { store := store, ws := unbind w1 jobID, dirRemoved := false }

/-! ### Concrete states used to exercise the model -/

/-- A store with no records. -/
def emptyStore : Store := fun _ => none

/-- A WebSocket state with no registered connections. -/
def emptyWs : WsState :=
  { registry := fun _ => none, closed := fun _ => false, sent := fun _ => [] }

/-- A WebSocket state in which connection `0` is registered for job `"j"`. -/
def wsBoundJ : WsState :=
  { registry := fun k => if k = "j" then some 0 else none
    closed := fun _ => false
    sent := fun _ => [] }

/-- Initial runner state: empty store, no connections. -/
def initState : RunState :=
  { store := emptyStore, ws := emptyWs, records := [], dirRemoved := false }

/-- Initial runner state with connection `0` subscribed to job `"j"`. -/
def boundState : RunState :=
  { store := emptyStore, ws := wsBoundJ, records := [], dirRemoved := false }

/-- A store holding a terminal record for job `"j"`. -/
def storeDone : Store :=
  fun k => if k = "j" then some ⟨100, "completed", []⟩ else none

/-- A classification backend that fails on every item. -/
def clNone : Classify := fun _ => none

/-- A push oracle under which every WebSocket write succeeds. -/
def okTrue : Nat → Bool := fun _ => true

/-- A push oracle under which every WebSocket write fails. -/
def okFalse : Nat → Bool := fun _ => false

/-- Sample uploads. -/
def fileA : FileHeader := ⟨['a']⟩

def fileB : FileHeader := ⟨['b']⟩

/-- A sample class label. -/
def demoLabel : Classes := ⟨1, "glass", "Glass", ""⟩

/-- A backend that classifies `b.jpg` (under the empty job directory) as
`demoLabel` and fails everything else. -/
def clDemo : Classify :=
  fun p => if p = pathJoin [] (jpgFileName ['b']) then some demoLabel else none

/-! ### Characterisation of the batch runner

The following definitions are *derived descriptions* of what
`ProcessPredictions` computes; `loopGo_spec` and
`processPredictions_records` prove that the embedded code matches them. -/

/-- The item result of every input file, in input order. -/
def allPredictions (cl : Classify) (jobID : String) (jobDir : List Char)
    (files : List FileHeader) : List JobImagePrediction :=
  files.map (itemPrediction cl jobID jobDir)

/-- Number of chunks for `total` items with chunk size 10: `ceil(total/10)`. -/
def numChunks (total : Nat) : Nat := (total + 9) / 10

/-- The record stored for the job after the `k`-th chunk (0-indexed): the
items processed so far are `min ((k+1)*10) total`, the percentage is their
share of the total rounded down, and the prediction list holds the results
of exactly those items. -/
def chunkRecord (cl : Classify) (jobID : String) (jobDir : List Char)
    (files : List FileHeader) (k : Nat) : JobProgress :=
  { progress := (min ((k + 1) * 10) files.length) * 100 / files.length
    status := "running"
    predictions := (allPredictions cl jobID jobDir files).take ((k + 1) * 10) }

/-- The terminal record: all items accounted for, progress 100. -/
def terminalRecord (cl : Classify) (jobID : String) (jobDir : List Char)
    (files : List FileHeader) : JobProgress :=
  { progress := 100
    status := "completed"
    predictions := allPredictions cl jobID jobDir files }

/-- The loop does nothing on an empty remainder, whatever the fuel. -/
theorem loopGo_nil (cl : Classify) (pushOk : Nat → Bool) (jobID : String)
    (jobDir : List Char) (total fuel done : Nat) (s : RunState) :
    loopGo cl pushOk jobID jobDir total fuel [] done s = s := by
  cases fuel <;> rfl

/-- What one chunk iteration does, at chunk index `k` (so `done = 10 * k`),
assuming the store invariant: no record yet for `k = 0`, and the record of
the first `10 * k` items for `0 < k`. -/
theorem chunkStep_spec (cl : Classify) (pushOk : Nat → Bool) (jobID : String)
    (jobDir : List Char) (files : List FileHeader) (k : Nat) (s : RunState)
    (hlt : 10 * k < files.length)
    (h0 : k = 0 → s.store jobID = none)
    (hpos : 0 < k → ∃ r, s.store jobID = some r ∧
      r.predictions = (allPredictions cl jobID jobDir files).take (10 * k)) :
    chunkStep cl pushOk jobID jobDir files.length (files.drop (10 * k)) (10 * k) s =
      { store := fun key => if key = jobID
          then some (chunkRecord cl jobID jobDir files k) else s.store key
        ws := match s.ws.registry jobID with
          | some c => wsSend pushOk s.ws c
              (WsPayload.progress (chunkRecord cl jobID jobDir files k))
          | none => s.ws
        records := s.records ++ [chunkRecord cl jobID jobDir files k]
        dirRemoved := s.dirRemoved } := by
  have hchunklen : ((files.drop (10 * k)).take 10).length =
      min 10 (files.length - 10 * k) := by
    simp [List.length_take, List.length_drop]
  have hprogress : 10 * k + min 10 (files.length - 10 * k) =
      min ((k + 1) * 10) files.length := by omega
  have hpreds : ((files.drop (10 * k)).take 10).map (itemPrediction cl jobID jobDir) =
      ((allPredictions cl jobID jobDir files).drop (10 * k)).take 10 := by
    simp [allPredictions, List.map_take, List.map_drop]
  rcases Nat.eq_zero_or_pos k with hk | hk
  · subst hk
    have hstore := h0 rfl
    have hrec : JobProgress.mk
        (((10 * 0 + ((files.drop (10 * 0)).take 10).length) * 100) / files.length)
        "running"
        (((files.drop (10 * 0)).take 10).map (itemPrediction cl jobID jobDir))
        = chunkRecord cl jobID jobDir files 0 := by
      simp only [chunkRecord, hpreds, hchunklen, hprogress]
      congr 1
    simp only [chunkStep, upsert, hstore]
    rw [hrec]
  · obtain ⟨r, hr, hrpreds⟩ := hpos hk
    have hrec : JobProgress.mk
        (((10 * k + ((files.drop (10 * k)).take 10).length) * 100) / files.length)
        "running"
        (r.predictions ++ ((files.drop (10 * k)).take 10).map (itemPrediction cl jobID jobDir))
        = chunkRecord cl jobID jobDir files k := by
      simp only [chunkRecord, hpreds, hchunklen, hprogress, hrpreds]
      congr 1
      rw [← List.take_add]
      congr 1
      omega
    simp only [chunkStep, upsert, hr]
    rw [hrec]

/-- Characterisation of the chunk loop started at chunk boundary `k` (index
`done = 10 * k`) with enough fuel: it appends exactly the chunk records
`k, k+1, ..., numChunks - 1` to the trace, leaves the last chunk record in
the store, and touches neither the WebSocket registry, the closed-flags, nor
the directory flag. -/
theorem loopGo_spec (cl : Classify) (pushOk : Nat → Bool) (jobID : String)
    (jobDir : List Char) (files : List FileHeader) :
    ∀ (fuel k : Nat) (s : RunState),
      numChunks files.length ≤ fuel + k →
      10 * k ≤ files.length →
      (k = 0 → s.store jobID = none) →
      (0 < k → ∃ r, s.store jobID = some r ∧
        r.predictions = (allPredictions cl jobID jobDir files).take (10 * k)) →
      (loopGo cl pushOk jobID jobDir files.length fuel (files.drop (10 * k)) (10 * k) s).records
        = s.records ++ (List.range' k (numChunks files.length - k)).map
            (chunkRecord cl jobID jobDir files) ∧
      (k < numChunks files.length →
        (loopGo cl pushOk jobID jobDir files.length fuel (files.drop (10 * k)) (10 * k) s).store jobID
          = some (chunkRecord cl jobID jobDir files (numChunks files.length - 1))) ∧
      (k = numChunks files.length →
        loopGo cl pushOk jobID jobDir files.length fuel (files.drop (10 * k)) (10 * k) s = s) ∧
      (loopGo cl pushOk jobID jobDir files.length fuel (files.drop (10 * k)) (10 * k) s).ws.registry
        = s.ws.registry ∧
      (loopGo cl pushOk jobID jobDir files.length fuel (files.drop (10 * k)) (10 * k) s).ws.closed
        = s.ws.closed ∧
      (loopGo cl pushOk jobID jobDir files.length fuel (files.drop (10 * k)) (10 * k) s).dirRemoved
        = s.dirRemoved := by
  intro fuel
  induction fuel with
  | zero =>
    intro k s hfuel hk _h0 _hpos
    have hnc : numChunks files.length = (files.length + 9) / 10 := rfl
    have hkm : k = numChunks files.length := by omega
    have hloop : loopGo cl pushOk jobID jobDir files.length 0
        (files.drop (10 * k)) (10 * k) s = s := rfl
    rw [hloop]
    refine ⟨?_, ?_, fun _ => rfl, rfl, rfl, rfl⟩
    · rw [← hkm]
      simp
    · intro hlt
      omega
  | succ fuel ih =>
    intro k s hfuel hk h0 hpos
    have hnc : numChunks files.length = (files.length + 9) / 10 := rfl
    by_cases hlt : 10 * k < files.length
    · -- at least one more chunk to process
      have hne : files.drop (10 * k) ≠ [] := by
        intro hnil
        have := congrArg List.length hnil
        simp at this
        omega
      obtain ⟨a, rest, hcons⟩ := List.exists_cons_of_ne_nil hne
      have hstep : loopGo cl pushOk jobID jobDir files.length (fuel + 1)
          (files.drop (10 * k)) (10 * k) s
          = loopGo cl pushOk jobID jobDir files.length fuel
              ((files.drop (10 * k)).drop 10)
              (10 * k + ((files.drop (10 * k)).take 10).length)
              (chunkStep cl pushOk jobID jobDir files.length
                (files.drop (10 * k)) (10 * k) s) := by
        rw [hcons]
        rfl
      have hdrop : (files.drop (10 * k)).drop 10 = files.drop (10 * (k + 1)) := by
        rw [List.drop_drop]
        congr 1
      have hcs := chunkStep_spec cl pushOk jobID jobDir files k s hlt h0 hpos
      have hcsrec : (chunkStep cl pushOk jobID jobDir files.length
          (files.drop (10 * k)) (10 * k) s).records
          = s.records ++ [chunkRecord cl jobID jobDir files k] := by rw [hcs]
      have hcsstore : (chunkStep cl pushOk jobID jobDir files.length
          (files.drop (10 * k)) (10 * k) s).store jobID
          = some (chunkRecord cl jobID jobDir files k) := by rw [hcs]; simp
      have hcsreg : (chunkStep cl pushOk jobID jobDir files.length
          (files.drop (10 * k)) (10 * k) s).ws.registry = s.ws.registry := by
        rw [hcs]
        cases hr : s.ws.registry jobID <;> simp [wsSend]
      have hcsclosed : (chunkStep cl pushOk jobID jobDir files.length
          (files.drop (10 * k)) (10 * k) s).ws.closed = s.ws.closed := by
        rw [hcs]
        cases hr : s.ws.registry jobID <;> simp [wsSend]
      have hcsdir : (chunkStep cl pushOk jobID jobDir files.length
          (files.drop (10 * k)) (10 * k) s).dirRemoved = s.dirRemoved := by
        rw [hcs]
      by_cases hlast : files.length ≤ 10 * (k + 1)
      · -- this is the final chunk: the recursive call sees an empty list
        have hnil : files.drop (10 * (k + 1)) = [] := by
          apply List.drop_eq_nil_of_le
          omega
        have hm : numChunks files.length = k + 1 := by omega
        rw [hstep, hdrop, hnil, loopGo_nil]
        refine ⟨?_, ?_, ?_, hcsreg, hcsclosed, hcsdir⟩
        · rw [hcsrec, hm]
          have h1 : k + 1 - k = 1 := by omega
          rw [h1, List.range'_one]
          simp
        · intro _
          rw [hcsstore, hm]
          simp
        · intro hcontra
          omega
      · -- more chunks follow: apply the induction hypothesis at k + 1
        have hdone : 10 * k + ((files.drop (10 * k)).take 10).length
            = 10 * (k + 1) := by
          simp [List.length_take, List.length_drop]
          omega
        have hih := ih (k + 1)
          (chunkStep cl pushOk jobID jobDir files.length
            (files.drop (10 * k)) (10 * k) s)
          (by omega) (by omega) (by omega)
          (by
            intro _
            refine ⟨chunkRecord cl jobID jobDir files k, hcsstore, ?_⟩
            have : 10 * (k + 1) = (k + 1) * 10 := by omega
            rw [this]
            rfl)
        rw [hstep, hdrop, hdone]
        obtain ⟨ihrec, ihstore, _ihid, ihreg, ihclosed, ihdir⟩ := hih
        have hksucc : k < numChunks files.length := by omega
        have hk1lt : k + 1 < numChunks files.length := by omega
        refine ⟨?_, fun _ => ihstore hk1lt, ?_, ihreg.trans hcsreg,
          ihclosed.trans hcsclosed, ihdir.trans hcsdir⟩
        · rw [ihrec, hcsrec]
          have hsplit : numChunks files.length - k
              = (numChunks files.length - (k + 1)) + 1 := by omega
          rw [hsplit, List.range'_succ]
          simp
        · intro hcontra
          omega
    · -- no more chunks: 10 * k = files.length, the loop body is skipped
      have hnil : files.drop (10 * k) = [] := by
        apply List.drop_eq_nil_of_le
        omega
      have hkm : k = numChunks files.length := by omega
      rw [hnil, loopGo_nil]
      refine ⟨?_, ?_, fun _ => rfl, rfl, rfl, rfl⟩
      · rw [← hkm]
        simp
      · intro hcontra
        omega

theorem allPredictions_length (cl : Classify) (jobID : String)
    (jobDir : List Char) (files : List FileHeader) :
    (allPredictions cl jobID jobDir files).length = files.length := by
  simp [allPredictions]

/-- After the last chunk the stored record holds every item's result. -/
theorem chunkRecord_last_predictions (cl : Classify) (jobID : String)
    (jobDir : List Char) (files : List FileHeader) (h : 0 < files.length) :
    (chunkRecord cl jobID jobDir files (numChunks files.length - 1)).predictions
      = allPredictions cl jobID jobDir files := by
  have hnc : numChunks files.length = (files.length + 9) / 10 := rfl
  simp only [chunkRecord]
  apply List.take_of_length_le
  rw [allPredictions_length]
  omega

/-- Full characterisation of one run of `ProcessPredictions` on a fresh job
id: the trace of stored records is the chunk records followed by the
terminal record, the store ends at the terminal record, the WebSocket
registry is never written, and the close/cleanup actions happen exactly when
a connection is registered for the job. -/
theorem processPredictions_spec (cl : Classify) (pushOk : Nat → Bool)
    (jobID : String) (files : List FileHeader) (jobDir : List Char)
    (s : RunState) (h0 : s.store jobID = none) :
    (processPredictions cl pushOk jobID files jobDir s).records
        = s.records ++ (List.range (numChunks files.length)).map
            (chunkRecord cl jobID jobDir files)
          ++ [terminalRecord cl jobID jobDir files] ∧
    (processPredictions cl pushOk jobID files jobDir s).store jobID
        = some (terminalRecord cl jobID jobDir files) ∧
    (processPredictions cl pushOk jobID files jobDir s).ws.registry
        = s.ws.registry ∧
    (∀ c, s.ws.registry jobID = some c →
      (processPredictions cl pushOk jobID files jobDir s).dirRemoved = true ∧
      (processPredictions cl pushOk jobID files jobDir s).ws.closed c = true ∧
      ∃ l, ((processPredictions cl pushOk jobID files jobDir s).ws.sent c).map Prod.fst
        = l ++ [WsPayload.completedMsg jobID (terminalRecord cl jobID jobDir files),
                WsPayload.closeFrame]) ∧
    (s.ws.registry jobID = none →
      (processPredictions cl pushOk jobID files jobDir s).dirRemoved = s.dirRemoved ∧
      (processPredictions cl pushOk jobID files jobDir s).ws.closed = s.ws.closed) := by
  have hnc : numChunks files.length = (files.length + 9) / 10 := rfl
  have hloop := loopGo_spec cl pushOk jobID jobDir files (files.length + 1) 0 s
    (by omega) (by omega) (fun _ => h0) (fun h => absurd h (lt_irrefl 0))
  rw [Nat.mul_zero, List.drop_zero] at hloop
  set L := loopGo cl pushOk jobID jobDir files.length (files.length + 1) files 0 s
    with hL
  obtain ⟨hrec, hstore, hid, hreg, hclosed, hdir⟩ := hloop
  simp only [Nat.sub_zero, ← List.range_eq_range'] at hrec
  have hfu1 : (terminalWrite L.store jobID).1 = terminalRecord cl jobID jobDir files := by
    rcases Nat.eq_zero_or_pos (numChunks files.length) with hm | hm
    · have hfiles : files = [] := by
        have hlen : files.length = 0 := by omega
        exact List.length_eq_zero.mp hlen
      have hs1 : L = s := hid hm.symm
      rw [hs1]
      simp [terminalWrite, h0, terminalRecord, hfiles, allPredictions]
    · have hst := hstore hm
      simp only [terminalWrite, hst]
      simp [terminalRecord, chunkRecord_last_predictions cl jobID jobDir files (by omega)]
  have hfu2 : (terminalWrite L.store jobID).2 jobID
      = some (terminalWrite L.store jobID).1 := by
    rcases hsj : L.store jobID with _ | r <;> simp [terminalWrite, hsj]
  simp only [processPredictions]
  rw [← hL, hreg]
  rcases hws : s.ws.registry jobID with _ | c
  · simp only
    refine ⟨?_, ?_, hreg, ?_, ?_⟩
    · rw [hrec, hfu1, List.append_assoc]
    · rw [hfu2, hfu1]
    · intro c hcontra
      cases hcontra
    · intro _
      exact ⟨hdir, hclosed⟩
  · simp only
    refine ⟨?_, ?_, ?_, ?_, ?_⟩
    · rw [hrec, hfu1, List.append_assoc]
    · rw [hfu2, hfu1]
    · simp [closeConn, wsSend, hreg]
    · intro c2 hc2
      injection hc2 with hc2
      subst hc2
      refine ⟨by trivial, by simp [closeConn], ?_⟩
      refine ⟨(L.ws.sent c).map Prod.fst, ?_⟩
      simp [closeConn, wsSend, hfu1]
    · intro hcontra
      cases hcontra

/-- A non-decreasing function mapped over `range m`, followed by an upper
bound, forms a non-decreasing chain. -/
theorem chain_le_map_range_append (f : Nat → Nat) (top m : Nat)
    (hmono : ∀ k, k + 1 < m → f k ≤ f (k + 1))
    (htop : ∀ k, k < m → f k ≤ top) :
    List.Chain' (· ≤ ·) ((List.range m).map f ++ [top]) := by
  apply List.Chain'.append
  · rw [List.chain'_map]
    cases m with
    | zero => simp
    | succ n => exact (List.chain'_range_succ _ n).mpr fun k hk => hmono k (by omega)
  · simp
  · intro x hx y hy
    cases m with
    | zero => simp at hx
    | succ n =>
      rw [List.range_succ, List.map_append] at hx
      simp at hx hy
      subst hx
      subst hy
      exact htop n (by omega)

/-- The chunk percentage is bounded by 100. -/
theorem chunk_percentage_le (N k : Nat) (hN : 0 < N) :
    (min ((k + 1) * 10) N) * 100 / N ≤ 100 := by
  have h1 : (min ((k + 1) * 10) N) * 100 ≤ N * 100 :=
    Nat.mul_le_mul_right 100 (min_le_right _ _)
  have h2 : N * 100 / N = 100 := Nat.mul_div_cancel_left 100 hN
  calc (min ((k + 1) * 10) N) * 100 / N ≤ N * 100 / N := Nat.div_le_div_right h1
    _ = 100 := h2

/-- The chunk percentage is non-decreasing in the chunk index. -/
theorem chunk_percentage_mono (N k : Nat) :
    (min ((k + 1) * 10) N) * 100 / N ≤ (min ((k + 2) * 10) N) * 100 / N := by
  apply Nat.div_le_div_right
  apply Nat.mul_le_mul_right
  exact min_le_min (by omega) le_rfl

/-! ### Claim C1 -/

/-- C1: for a job with `N ≥ 1` items and chunk size 10, `ProcessPredictions`
writes exactly `ceil(N/10)` non-terminal records, the `k`-th (0-indexed here;
the claim counts 1-indexed) carrying `progressPercent =
floor(min((k+1)*10, N) * 100 / N)` and status `running`; then exactly one
terminal record with status `completed`, progress 100, and one result entry
per input item in input order; the percentage sequence over all records is
non-decreasing and ends at 100. -/
theorem processPredictions_chunked_progress (cl : Classify) (pushOk : Nat → Bool)
    (jobID : String) (files : List FileHeader) (jobDir : List Char) (s : RunState)
    (h0 : s.store jobID = none) (hrecs : s.records = []) (hne : files ≠ []) :
    (processPredictions cl pushOk jobID files jobDir s).records.length
        = (files.length + 9) / 10 + 1 ∧
    (∀ k, k < (files.length + 9) / 10 →
      (processPredictions cl pushOk jobID files jobDir s).records[k]?
          = some (chunkRecord cl jobID jobDir files k) ∧
      (chunkRecord cl jobID jobDir files k).progress
          = (min ((k + 1) * 10) files.length) * 100 / files.length ∧
      (chunkRecord cl jobID jobDir files k).status = "running") ∧
    (processPredictions cl pushOk jobID files jobDir s).records[(files.length + 9) / 10]?
        = some (terminalRecord cl jobID jobDir files) ∧
    (terminalRecord cl jobID jobDir files).progress = 100 ∧
    (terminalRecord cl jobID jobDir files).status = "completed" ∧
    (terminalRecord cl jobID jobDir files).predictions
        = files.map (itemPrediction cl jobID jobDir) ∧
    List.Chain' (· ≤ ·)
      ((processPredictions cl pushOk jobID files jobDir s).records.map JobProgress.progress) ∧
    ((processPredictions cl pushOk jobID files jobDir s).records.map JobProgress.progress).getLast?
        = some 100 := by
  have hnc : numChunks files.length = (files.length + 9) / 10 := rfl
  have hN : 0 < files.length := List.length_pos.mpr hne
  obtain ⟨hrec, _hstore, _, _, _⟩ :=
    processPredictions_spec cl pushOk jobID files jobDir s h0
  rw [hrecs, List.nil_append, hnc] at hrec
  have hlenmap : ((List.range ((files.length + 9) / 10)).map
      (chunkRecord cl jobID jobDir files)).length = (files.length + 9) / 10 := by
    simp
  refine ⟨?_, ?_, ?_, rfl, rfl, rfl, ?_, ?_⟩
  · rw [hrec]
    simp
  · intro k hk
    refine ⟨?_, rfl, rfl⟩
    rw [hrec]
    simp [List.getElem?_append, hlenmap, hk]
  · rw [hrec]
    simp [List.getElem?_append, hlenmap]
  · rw [hrec]
    rw [List.map_append, List.map_map]
    have hcomp : JobProgress.progress ∘ chunkRecord cl jobID jobDir files
        = fun k => (min ((k + 1) * 10) files.length) * 100 / files.length := rfl
    rw [hcomp]
    exact chain_le_map_range_append _ _ _
      (fun k _ => chunk_percentage_mono files.length k)
      (fun k _ => chunk_percentage_le files.length k hN)
  · rw [hrec]
    rw [List.map_append]
    simp [terminalRecord]

/-- Witness for C1 at a concrete one-item job. -/
theorem processPredictions_chunked_progress_witness :
    initState.store "j" = none ∧ initState.records = [] ∧
    ([fileA] : List FileHeader) ≠ [] ∧
    (processPredictions clNone okTrue "j" [fileA] [] initState).records.length
      = (([fileA] : List FileHeader).length + 9) / 10 + 1 :=
  ⟨rfl, rfl, by decide,
    (processPredictions_chunked_progress clNone okTrue "j" [fileA] [] initState
      rfl rfl (by decide)).1⟩

/-! ### Claim C3 -/

/-- A shorter take of the same list is a prefix of a longer take. -/
theorem take_prefix_take (l : List JobImagePrediction) (m n : Nat) (h : m ≤ n) :
    l.take m <+: l.take n := by
  have heq : l.take m = (l.take n).take m := by
    rw [List.take_take, min_eq_left h]
  rw [heq]
  exact List.take_prefix _ _

/-- C3: across the records successively stored for a job — the chunk updates
and then the terminal update — the progress percentage is non-decreasing and
each record's prediction list extends the previous one (the previous list is
a prefix; results are never truncated or reordered). -/
theorem records_monotone_prefix (cl : Classify) (pushOk : Nat → Bool)
    (jobID : String) (files : List FileHeader) (jobDir : List Char) (s : RunState)
    (h0 : s.store jobID = none) (hrecs : s.records = []) :
    List.Chain' (fun a b => a.progress ≤ b.progress ∧ a.predictions <+: b.predictions)
      (processPredictions cl pushOk jobID files jobDir s).records := by
  have hnc : numChunks files.length = (files.length + 9) / 10 := rfl
  obtain ⟨hrec, _, _, _, _⟩ := processPredictions_spec cl pushOk jobID files jobDir s h0
  rw [hrecs, List.nil_append] at hrec
  rw [hrec]
  apply List.Chain'.append
  · rw [List.chain'_map]
    cases hm : numChunks files.length with
    | zero => simp
    | succ n =>
      apply (List.chain'_range_succ _ n).mpr
      intro k _hk
      exact ⟨chunk_percentage_mono files.length k,
        take_prefix_take _ _ _ (by omega)⟩
  · simp
  · intro x hx y hy
    cases hm : numChunks files.length with
    | zero =>
      rw [hm] at hx
      simp at hx
    | succ n =>
      rw [hm, List.range_succ, List.map_append] at hx
      simp at hx hy
      subst hx
      subst hy
      have hN : 0 < files.length := by omega
      exact ⟨chunk_percentage_le files.length n hN, List.take_prefix _ _⟩

/-- Witness for C3 at a concrete one-item job. -/
theorem records_monotone_prefix_witness :
    initState.store "j" = none ∧ initState.records = [] ∧
    List.Chain' (fun a b => a.progress ≤ b.progress ∧ a.predictions <+: b.predictions)
      (processPredictions clNone okTrue "j" [fileA] [] initState).records :=
  ⟨rfl, rfl, records_monotone_prefix clNone okTrue "j" [fileA] [] initState rfl rfl⟩

/-! ### Claim C10 -/

/-- C10: for the empty item list the runner writes no per-chunk update and
exactly one terminal record (progress 100, completed, empty result list);
and the progress division is evaluated only when the total item count is
positive — every `running` record in any trace implies a positive total, so
the division `end * 100 / total` never runs with `total = 0`. -/
theorem empty_job_and_division_guard (cl : Classify) (pushOk : Nat → Bool)
    (jobID : String) (jobDir : List Char) (s : RunState)
    (h0 : s.store jobID = none) (hrecs : s.records = []) :
    (processPredictions cl pushOk jobID [] jobDir s).records
        = [{ progress := 100, status := "completed", predictions := [] }] ∧
    ∀ (files : List FileHeader) (r : JobProgress),
      r ∈ (processPredictions cl pushOk jobID files jobDir s).records →
      r.status = "running" → 0 < files.length := by
  constructor
  · obtain ⟨hrec, _, _, _, _⟩ := processPredictions_spec cl pushOk jobID [] jobDir s h0
    rw [hrecs, List.nil_append] at hrec
    rw [hrec]
    rfl
  · intro files r hr hstat
    have hnc : numChunks files.length = (files.length + 9) / 10 := rfl
    obtain ⟨hrec, _, _, _, _⟩ := processPredictions_spec cl pushOk jobID files jobDir s h0
    rw [hrecs, List.nil_append] at hrec
    rw [hrec] at hr
    rcases List.mem_append.mp hr with h | h
    · obtain ⟨k, hk, _⟩ := List.mem_map.mp h
      have hkm : k < numChunks files.length := List.mem_range.mp hk
      omega
    · simp at h
      subst h
      simp [terminalRecord] at hstat

/-- Witness for C10. -/
theorem empty_job_and_division_guard_witness :
    initState.store "j" = none ∧ initState.records = [] ∧
    (processPredictions clNone okTrue "j" [] [] initState).records
      = [{ progress := 100, status := "completed", predictions := [] }] :=
  ⟨rfl, rfl, (empty_job_and_division_guard clNone okTrue "j" [] initState rfl rfl).1⟩

/-! ### Claim C9 -/

/-- C9: the name recorded for an input file is the original filename when its
extension is exactly `".jpg"` and the original filename with `".jpg"`
appended otherwise; the transformation is idempotent and its result always
ends in `".jpg"`; and it is exactly the name recorded in the item's result. -/
theorem jpg_filename_spec (f : FileHeader) :
    (filepathExt f.filename = jpgExt → getJpgFileName f = f.filename) ∧
    (filepathExt f.filename ≠ jpgExt → getJpgFileName f = f.filename ++ jpgExt) ∧
    jpgFileName (jpgFileName f.filename) = jpgFileName f.filename ∧
    jpgExt <:+ getJpgFileName f ∧
    ∀ (cl : Classify) (jobID : String) (jobDir : List Char),
      (itemPrediction cl jobID jobDir f).imageName = getJpgFileName f := by
  refine ⟨?_, ?_, jpgFileName_idem f.filename, jpgFileName_suffix f.filename,
    fun _ _ _ => rfl⟩
  · intro h
    rw [getJpgFileName, jpgFileName, if_neg (not_not_intro h)]
  · intro h
    rw [getJpgFileName, jpgFileName, if_pos h]

/-- Witness for C9: `"x.png"` maps to `"x.png.jpg"` and `"x.jpeg"` to
`"x.jpeg.jpg"`. -/
theorem jpg_filename_spec_witness :
    filepathExt ['x', '.', 'p', 'n', 'g'] ≠ jpgExt ∧
    getJpgFileName ⟨['x', '.', 'p', 'n', 'g']⟩ = ['x', '.', 'p', 'n', 'g'] ++ jpgExt ∧
    filepathExt ['x', '.', 'j', 'p', 'e', 'g'] ≠ jpgExt ∧
    getJpgFileName ⟨['x', '.', 'j', 'p', 'e', 'g']⟩
      = ['x', '.', 'j', 'p', 'e', 'g'] ++ jpgExt :=
  ⟨by decide, (jpg_filename_spec ⟨['x', '.', 'p', 'n', 'g']⟩).2.1 (by decide),
   by decide, (jpg_filename_spec ⟨['x', '.', 'j', 'p', 'e', 'g']⟩).2.1 (by decide)⟩

/-! ### Claim C2 -/

/-- C2: the store upsert used by the batch runner merges: with no existing
record the stored record is exactly the update; with an existing record the
stored prediction list is the old list with the update's predictions
appended, while progress and status take the update's values; other keys are
untouched.  The terminal write follows the same merge discipline for an
update carrying no predictions. -/
theorem upsert_merge_semantics (store : Store) (jobID : String) (update : JobProgress) :
    (store jobID = none →
      (upsert store jobID update).1 = update ∧
      (upsert store jobID update).2 jobID = some update) ∧
    (∀ old, store jobID = some old →
      (upsert store jobID update).1
        = { progress := update.progress, status := update.status,
            predictions := old.predictions ++ update.predictions } ∧
      (upsert store jobID update).2 jobID
        = some { progress := update.progress, status := update.status,
                 predictions := old.predictions ++ update.predictions }) ∧
    (∀ k, k ≠ jobID → (upsert store jobID update).2 k = store k) ∧
    (∀ old, store jobID = some old →
      (terminalWrite store jobID).2 jobID
        = some { progress := 100, status := "completed",
                 predictions := old.predictions ++ [] }) ∧
    (store jobID = none →
      (terminalWrite store jobID).2 jobID
        = some { progress := 100, status := "completed", predictions := [] }) := by
  refine ⟨?_, ?_, ?_, ?_, ?_⟩
  · intro h
    simp [upsert, h]
  · intro old h
    simp [upsert, h]
  · intro k hk
    rcases h : store jobID with _ | old <;> simp [upsert, h, hk]
  · intro old h
    simp [terminalWrite, h]
  · intro h
    simp [terminalWrite, h]

/-- Witness for C2. -/
theorem upsert_merge_semantics_witness :
    emptyStore "j" = none ∧
    (upsert emptyStore "j" ⟨50, "running", []⟩).2 "j" = some ⟨50, "running", []⟩ :=
  ⟨rfl, ((upsert_merge_semantics emptyStore "j" ⟨50, "running", []⟩).1 rfl).2⟩

/-! ### Claim C4 -/

/-- C4: a per-item classification failure is recorded as a `Failed` result in
that item's input position; it aborts neither the chunk nor the job; it
changes neither the progress/status trajectory of the job nor the results of
sibling items; and for the two-item job `[a, b]` with `a` failing and `b`
succeeding with label `lbl`, the final results are
`[{a, Failed}, {b, Completed, lbl}]` in that order. -/
theorem item_failure_isolated (cl : Classify) (pushOk : Nat → Bool) (jobID : String)
    (files : List FileHeader) (jobDir : List Char) (s : RunState)
    (h0 : s.store jobID = none) :
    (∃ r, (processPredictions cl pushOk jobID files jobDir s).store jobID = some r ∧
      r.predictions = files.map (itemPrediction cl jobID jobDir)) ∧
    (∀ (j : Nat) (f : FileHeader), files[j]? = some f →
      cl (pathJoin jobDir (getJpgFileName f)) = none →
      ∃ r, (processPredictions cl pushOk jobID files jobDir s).store jobID = some r ∧
        r.predictions[j]? = some (itemPrediction cl jobID jobDir f) ∧
        (itemPrediction cl jobID jobDir f).status = "Failed" ∧
        (itemPrediction cl jobID jobDir f).imageName = getJpgFileName f) ∧
    (∀ cl2 : Classify,
      (processPredictions cl2 pushOk jobID files jobDir s).records.map
          (fun r => (r.progress, r.status))
        = (processPredictions cl pushOk jobID files jobDir s).records.map
          (fun r => (r.progress, r.status))) ∧
    (∀ (cl2 : Classify) (j : Nat) (f : FileHeader), files[j]? = some f →
      cl2 (pathJoin jobDir (getJpgFileName f)) = cl (pathJoin jobDir (getJpgFileName f)) →
      ∃ r2 r1, (processPredictions cl2 pushOk jobID files jobDir s).store jobID = some r2 ∧
        (processPredictions cl pushOk jobID files jobDir s).store jobID = some r1 ∧
        r2.predictions[j]? = r1.predictions[j]?) ∧
    (∀ (a b : FileHeader) (lbl : Classes), files = [a, b] →
      cl (pathJoin jobDir (getJpgFileName a)) = none →
      cl (pathJoin jobDir (getJpgFileName b)) = some lbl →
      ∃ r, (processPredictions cl pushOk jobID files jobDir s).store jobID = some r ∧
        r.predictions
          = [{ jobID := jobID, prediction := zeroClasses,
               imageName := getJpgFileName a, status := "Failed" },
             { jobID := jobID, prediction := lbl,
               imageName := getJpgFileName b, status := "Completed" }]) := by
  obtain ⟨_, hstore, _, _, _⟩ := processPredictions_spec cl pushOk jobID files jobDir s h0
  refine ⟨⟨terminalRecord cl jobID jobDir files, hstore, rfl⟩, ?_, ?_, ?_, ?_⟩
  · intro j f hj hfail
    refine ⟨terminalRecord cl jobID jobDir files, hstore, ?_, ?_, rfl⟩
    · show (allPredictions cl jobID jobDir files)[j]? = _
      rw [allPredictions, List.getElem?_map, hj]
      rfl
    · simp [itemPrediction, hfail]
  · intro cl2
    obtain ⟨hrec2, _, _, _, _⟩ := processPredictions_spec cl2 pushOk jobID files jobDir s h0
    obtain ⟨hrec1, _, _, _, _⟩ := processPredictions_spec cl pushOk jobID files jobDir s h0
    rw [hrec2, hrec1]
    simp only [List.map_append, List.map_map]
    rfl
  · intro cl2 j f hj hagree
    obtain ⟨_, hstore2, _, _, _⟩ := processPredictions_spec cl2 pushOk jobID files jobDir s h0
    refine ⟨terminalRecord cl2 jobID jobDir files, terminalRecord cl jobID jobDir files,
      hstore2, hstore, ?_⟩
    show (allPredictions cl2 jobID jobDir files)[j]?
      = (allPredictions cl jobID jobDir files)[j]?
    rw [allPredictions, allPredictions, List.getElem?_map, List.getElem?_map, hj]
    simp [itemPrediction, hagree]
  · intro a b lbl hfiles ha hb
    refine ⟨terminalRecord cl jobID jobDir files, hstore, ?_⟩
    subst hfiles
    show allPredictions cl jobID jobDir [a, b] = _
    simp [allPredictions, itemPrediction, ha, hb]

/-- Witness for C4: the concrete two-item scenario, `a.jpg` failing and
`b.jpg` classified as `demoLabel`. -/
theorem item_failure_isolated_witness :
    initState.store "j" = none ∧
    clDemo (pathJoin [] (getJpgFileName fileA)) = none ∧
    clDemo (pathJoin [] (getJpgFileName fileB)) = some demoLabel ∧
    (∃ r, (processPredictions clDemo okTrue "j" [fileA, fileB] [] initState).store "j"
        = some r ∧
      r.predictions
        = [{ jobID := "j", prediction := zeroClasses,
             imageName := getJpgFileName fileA, status := "Failed" },
           { jobID := "j", prediction := demoLabel,
             imageName := getJpgFileName fileB, status := "Completed" }]) :=
  ⟨rfl, by decide, by decide,
    (item_failure_isolated clDemo okTrue "j" [fileA, fileB] [] initState rfl).2.2.2.2
      fileA fileB demoLabel rfl (by decide) (by decide)⟩

/-! ### Claim C8 -/

/-- The outcome of a WebSocket write influences nothing in a chunk step
besides the recorded write attempt: store, trace, directory flag and
registry are the same under any two push oracles. -/
theorem chunkStep_pushOk_indep (cl : Classify) (p1 p2 : Nat → Bool) (jobID : String)
    (jobDir : List Char) (total : Nat) (rem : List FileHeader) (done : Nat)
    (s1 s2 : RunState) (hs : s1.store = s2.store) (hr : s1.records = s2.records)
    (hd : s1.dirRemoved = s2.dirRemoved) (hreg : s1.ws.registry = s2.ws.registry) :
    (chunkStep cl p1 jobID jobDir total rem done s1).store
      = (chunkStep cl p2 jobID jobDir total rem done s2).store ∧
    (chunkStep cl p1 jobID jobDir total rem done s1).records
      = (chunkStep cl p2 jobID jobDir total rem done s2).records ∧
    (chunkStep cl p1 jobID jobDir total rem done s1).dirRemoved
      = (chunkStep cl p2 jobID jobDir total rem done s2).dirRemoved ∧
    (chunkStep cl p1 jobID jobDir total rem done s1).ws.registry
      = (chunkStep cl p2 jobID jobDir total rem done s2).ws.registry := by
  have e1 : (chunkStep cl p1 jobID jobDir total rem done s1).ws.registry
      = s1.ws.registry := by
    simp only [chunkStep]
    rcases h : s1.ws.registry jobID <;> simp [wsSend]
  have e2 : (chunkStep cl p2 jobID jobDir total rem done s2).ws.registry
      = s2.ws.registry := by
    simp only [chunkStep]
    rcases h : s2.ws.registry jobID <;> simp [wsSend]
  refine ⟨?_, ?_, ?_, ?_⟩
  · simp [chunkStep, hs]
  · simp [chunkStep, hs, hr]
  · simp [chunkStep, hd]
  · rw [e1, e2, hreg]

/-- Push-oracle independence of the whole chunk loop. -/
theorem loopGo_pushOk_indep (cl : Classify) (p1 p2 : Nat → Bool) (jobID : String)
    (jobDir : List Char) (total : Nat) :
    ∀ (fuel : Nat) (rem : List FileHeader) (done : Nat) (s1 s2 : RunState),
      s1.store = s2.store → s1.records = s2.records →
      s1.dirRemoved = s2.dirRemoved → s1.ws.registry = s2.ws.registry →
      (loopGo cl p1 jobID jobDir total fuel rem done s1).store
        = (loopGo cl p2 jobID jobDir total fuel rem done s2).store ∧
      (loopGo cl p1 jobID jobDir total fuel rem done s1).records
        = (loopGo cl p2 jobID jobDir total fuel rem done s2).records ∧
      (loopGo cl p1 jobID jobDir total fuel rem done s1).dirRemoved
        = (loopGo cl p2 jobID jobDir total fuel rem done s2).dirRemoved ∧
      (loopGo cl p1 jobID jobDir total fuel rem done s1).ws.registry
        = (loopGo cl p2 jobID jobDir total fuel rem done s2).ws.registry := by
  intro fuel
  induction fuel with
  | zero =>
    intro rem done s1 s2 hs hr hd hreg
    exact ⟨hs, hr, hd, hreg⟩
  | succ fuel ih =>
    intro rem done s1 s2 hs hr hd hreg
    cases rem with
    | nil => exact ⟨hs, hr, hd, hreg⟩
    | cons a rest =>
      obtain ⟨cs, crec, cd, creg⟩ := chunkStep_pushOk_indep cl p1 p2 jobID jobDir
        total (a :: rest) done s1 s2 hs hr hd hreg
      simp only [loopGo]
      exact ih ((a :: rest).drop 10) (done + ((a :: rest).take 10).length)
        _ _ cs crec cd creg

/-- The final state's store is the terminal write applied after the loop,
whether or not a connection is registered. -/
theorem processPredictions_store_eq (cl : Classify) (pushOk : Nat → Bool)
    (jobID : String) (files : List FileHeader) (jobDir : List Char) (s : RunState) :
    (processPredictions cl pushOk jobID files jobDir s).store
      = (terminalWrite
          (loopGo cl pushOk jobID jobDir files.length (files.length + 1) files 0 s).store
          jobID).2 := by
  simp only [processPredictions]
  rcases hws : (loopGo cl pushOk jobID jobDir files.length (files.length + 1)
      files 0 s).ws.registry jobID with _ | c <;> simp [hws]

/-- The final record trace is the loop's trace plus the terminal record. -/
theorem processPredictions_records_eq (cl : Classify) (pushOk : Nat → Bool)
    (jobID : String) (files : List FileHeader) (jobDir : List Char) (s : RunState) :
    (processPredictions cl pushOk jobID files jobDir s).records
      = (loopGo cl pushOk jobID jobDir files.length (files.length + 1) files 0 s).records
        ++ [(terminalWrite
          (loopGo cl pushOk jobID jobDir files.length (files.length + 1) files 0 s).store
          jobID).1] := by
  simp only [processPredictions]
  rcases hws : (loopGo cl pushOk jobID jobDir files.length (files.length + 1)
      files 0 s).ws.registry jobID with _ | c <;> simp [hws]

/-- Directory cleanup happens iff a connection is registered after the loop. -/
theorem processPredictions_dir_eq (cl : Classify) (pushOk : Nat → Bool)
    (jobID : String) (files : List FileHeader) (jobDir : List Char) (s : RunState) :
    (∀ c, (loopGo cl pushOk jobID jobDir files.length (files.length + 1)
        files 0 s).ws.registry jobID = some c →
      (processPredictions cl pushOk jobID files jobDir s).dirRemoved = true) ∧
    ((loopGo cl pushOk jobID jobDir files.length (files.length + 1)
        files 0 s).ws.registry jobID = none →
      (processPredictions cl pushOk jobID files jobDir s).dirRemoved
        = (loopGo cl pushOk jobID jobDir files.length (files.length + 1)
            files 0 s).dirRemoved) := by
  constructor
  · intro c h
    simp only [processPredictions]
    simp [h]
  · intro h
    simp only [processPredictions]
    simp [h]

/-- The terminal write always stores progress 100 and status `completed`. -/
theorem terminalWrite_fields (store : Store) (jobID : String) :
    (terminalWrite store jobID).1.progress = 100 ∧
    (terminalWrite store jobID).1.status = "completed" ∧
    (terminalWrite store jobID).2 jobID = some (terminalWrite store jobID).1 := by
  rcases h : store jobID with _ | r <;> simp [terminalWrite, h]

/-- C8: a failing push to the subscriber handle does not propagate: under any
two push oracles (e.g. all pushes succeeding vs all failing) the job store,
the record trace and the cleanup flag of the whole run coincide, each single
chunk step leaves the same store, and the run still reaches the terminal
`completed` record with progress 100. -/
theorem push_failure_harmless (cl : Classify) (jobID : String)
    (files : List FileHeader) (jobDir : List Char) (s : RunState)
    (p1 p2 : Nat → Bool) :
    (processPredictions cl p1 jobID files jobDir s).store
      = (processPredictions cl p2 jobID files jobDir s).store ∧
    (processPredictions cl p1 jobID files jobDir s).records
      = (processPredictions cl p2 jobID files jobDir s).records ∧
    (processPredictions cl p1 jobID files jobDir s).dirRemoved
      = (processPredictions cl p2 jobID files jobDir s).dirRemoved ∧
    (∀ rem done, (chunkStep cl p1 jobID jobDir files.length rem done s).store
      = (chunkStep cl p2 jobID jobDir files.length rem done s).store) ∧
    ∃ fu, (processPredictions cl p1 jobID files jobDir s).store jobID = some fu ∧
      fu.progress = 100 ∧ fu.status = "completed" := by
  obtain ⟨hs, hr, hd, hreg⟩ := loopGo_pushOk_indep cl p1 p2 jobID jobDir files.length
    (files.length + 1) files 0 s s rfl rfl rfl rfl
  refine ⟨?_, ?_, ?_, ?_, ?_⟩
  · rw [processPredictions_store_eq, processPredictions_store_eq, hs]
  · rw [processPredictions_records_eq, processPredictions_records_eq, hr, hs]
  · rcases hws : (loopGo cl p2 jobID jobDir files.length (files.length + 1)
        files 0 s).ws.registry jobID with _ | c
    · rw [(processPredictions_dir_eq cl p1 jobID files jobDir s).2 (by rw [hreg, hws]),
        (processPredictions_dir_eq cl p2 jobID files jobDir s).2 hws, hd]
    · rw [(processPredictions_dir_eq cl p1 jobID files jobDir s).1 c (by rw [hreg, hws]),
        (processPredictions_dir_eq cl p2 jobID files jobDir s).1 c hws]
  · intro rem done
    exact (chunkStep_pushOk_indep cl p1 p2 jobID jobDir files.length rem done
      s s rfl rfl rfl rfl).1
  · obtain ⟨hp, hst, hj⟩ := terminalWrite_fields
      (loopGo cl p1 jobID jobDir files.length (files.length + 1) files 0 s).store jobID
    refine ⟨_, ?_, hp, hst⟩
    rw [processPredictions_store_eq]
    exact hj

/-! ### Claim C5 -/

/-- Counterexample to C5 as stated: after `bind(A)` then `bind(B)` for the
same job id, handle `B` is the sole binding, but the displaced handle `A` is
not closed or invalidated — the registration code only overwrites the map
entry. -/
theorem bind_close_counterexample :
    (bindConn (bindConn emptyWs "j" 0) "j" 1).registry "j" = some 1 ∧
    (bindConn (bindConn emptyWs "j" 0) "j" 1).closed 0 = false := by
  constructor <;> rfl

/-- C5 (amended): registering a connection for a job id displaces any prior
binding — afterwards the new handle is the sole binding for that job id
(last-writer-wins) and other job ids are untouched — but the displaced
handle is not closed and nothing is written to it: `closed` and `sent` are
unchanged across the two binds. -/
theorem bind_last_writer_wins (w : WsState) (jobID : String) (a b : Nat) :
    (bindConn (bindConn w jobID a) jobID b).registry jobID = some b ∧
    (∀ k, k ≠ jobID →
      (bindConn (bindConn w jobID a) jobID b).registry k = w.registry k) ∧
    (bindConn (bindConn w jobID a) jobID b).closed = w.closed ∧
    (bindConn (bindConn w jobID a) jobID b).sent = w.sent := by
  refine ⟨by simp [bindConn], ?_, rfl, rfl⟩
  intro k hk
  simp [bindConn, hk]

/-- Witness for the amended C5. -/
theorem bind_last_writer_wins_witness :
    (bindConn (bindConn emptyWs "j" 0) "j" 1).registry "j" = some 1 ∧
    ("x" : String) ≠ "j" ∧
    (bindConn (bindConn emptyWs "j" 0) "j" 1).registry "x" = emptyWs.registry "x" :=
  ⟨(bind_last_writer_wins emptyWs "j" 0 1).1, by decide,
    (bind_last_writer_wins emptyWs "j" 0 1).2.1 "x" (by decide)⟩

/-! ### Claim C6 -/

/-- C6: subscribing to a job id whose stored record is terminal (progress
100) delivers the terminal snapshot to the handle exactly once followed by a
close frame, closes the handle, and leaves no binding for the job id in the
registry once the handler returns; the job record is evicted along the way. -/
theorem subscribe_terminal_snapshot (pushOk : Nat → Bool) (store : Store)
    (w : WsState) (jobID : String) (c : Nat) (p : JobProgress)
    (hp : store jobID = some p) (h100 : p.progress = 100) (hfresh : w.sent c = []) :
    ((wsHandler pushOk store w jobID c).ws.sent c).map Prod.fst
        = [WsPayload.progress p, WsPayload.closeFrame] ∧
    (wsHandler pushOk store w jobID c).ws.closed c = true ∧
    (wsHandler pushOk store w jobID c).ws.registry jobID = none ∧
    (wsHandler pushOk store w jobID c).store jobID = none ∧
    (wsHandler pushOk store w jobID c).dirRemoved = true := by
  simp only [wsHandler, hp, h100, if_pos]
  refine ⟨?_, ?_, ?_, ?_, trivial⟩
  · simp [unbind, closeConn, wsSend, bindConn, hfresh]
  · simp [unbind, closeConn, wsSend, bindConn]
  · simp [unbind]
  · simp

/-- Witness for C6. -/
theorem subscribe_terminal_snapshot_witness :
    storeDone "j" = some ⟨100, "completed", []⟩ ∧
    (⟨100, "completed", []⟩ : JobProgress).progress = 100 ∧
    emptyWs.sent 0 = [] ∧
    ((wsHandler okTrue storeDone emptyWs "j" 0).ws.sent 0).map Prod.fst
      = [WsPayload.progress ⟨100, "completed", []⟩, WsPayload.closeFrame] :=
  ⟨rfl, rfl, rfl,
    (subscribe_terminal_snapshot okTrue storeDone emptyWs "j" 0
      ⟨100, "completed", []⟩ rfl rfl rfl).1⟩

/-! ### Claim C7 -/

/-- Counterexample to C7 as stated: with no subscriber bound, the runner
performs no cleanup — the job's working directory is not released (and no
handle is closed); moreover even with a subscriber bound the runner closes
the handle but does not remove the registry binding itself. -/
theorem terminal_cleanup_counterexample :
    initState.ws.registry "j" = none ∧
    (processPredictions clNone okTrue "j" [fileA] [] initState).dirRemoved = false ∧
    (processPredictions clNone okTrue "j" [fileA] [] initState).ws.closed 0 = false ∧
    (processPredictions clNone okTrue "j" [fileA] [] boundState).ws.registry "j"
      = some 0 := by
  refine ⟨rfl, ?_, ?_, ?_⟩ <;> rfl

/-- C7 (amended): after the last chunk the runner writes the terminal
`completed` record with progress 100; when a subscriber is bound it pushes
the completion message, closes the handle and removes the job's working
directory — the registry binding itself is left in place by the runner (it
is removed later by the handler's read loop) — and when no subscriber is
bound neither the close nor the directory removal happens. -/
theorem terminal_cleanup_requires_subscriber (cl : Classify) (pushOk : Nat → Bool)
    (jobID : String) (files : List FileHeader) (jobDir : List Char) (s : RunState)
    (h0 : s.store jobID = none) :
    (processPredictions cl pushOk jobID files jobDir s).store jobID
        = some (terminalRecord cl jobID jobDir files) ∧
    (terminalRecord cl jobID jobDir files).progress = 100 ∧
    (terminalRecord cl jobID jobDir files).status = "completed" ∧
    (processPredictions cl pushOk jobID files jobDir s).ws.registry = s.ws.registry ∧
    (∀ c, s.ws.registry jobID = some c →
      (processPredictions cl pushOk jobID files jobDir s).dirRemoved = true ∧
      (processPredictions cl pushOk jobID files jobDir s).ws.closed c = true ∧
      ∃ l, ((processPredictions cl pushOk jobID files jobDir s).ws.sent c).map Prod.fst
        = l ++ [WsPayload.completedMsg jobID (terminalRecord cl jobID jobDir files),
                WsPayload.closeFrame]) ∧
    (s.ws.registry jobID = none →
      (processPredictions cl pushOk jobID files jobDir s).dirRemoved = s.dirRemoved ∧
      (processPredictions cl pushOk jobID files jobDir s).ws.closed = s.ws.closed) := by
  obtain ⟨_, hstore, hreg, hsome, hnone⟩ :=
    processPredictions_spec cl pushOk jobID files jobDir s h0
  exact ⟨hstore, rfl, rfl, hreg, hsome, hnone⟩

/-- Witness for the amended C7, with a subscriber bound. -/
theorem terminal_cleanup_requires_subscriber_witness :
    boundState.store "j" = none ∧ boundState.ws.registry "j" = some 0 ∧
    (processPredictions clNone okTrue "j" [fileA] [] boundState).dirRemoved = true :=
  ⟨rfl, rfl,
    ((terminal_cleanup_requires_subscriber clNone okTrue "j" [fileA] [] boundState
      rfl).2.2.2.2.1 0 rfl).1⟩

end EcoSort
